import Mathlib

/-!
Shallow embedding of `src/behavioral/ChainResp.ts` (Composite tree of
directory entries + Chain-of-Responsibility module resolver).

Objects live in a heap indexed by `Nat` ids, since the source mutates
`Dirent` objects in place (`dirent.parent = this`,
`this.entries[dirent.dName] = dirent`, `delete this.entries[dName]`) and
entries alias: the same object can be reachable from several directories.

Kinds of objects, from the source classes:
  * `File(dName)`            — leaf; fields `dName`, `parent?`.
  * `Package(main)`          — `extends File`, `dName` fixed to
                               `"package.json"` by its constructor, extra
                               field `main` (default `"index.js"`).
  * `Directory(dName)`       — fields `dName`, `parent?`,
                               `entries : { [dName]: Dirent }`.
-/

namespace ChainResp

inductive DirentObj : Type where
  | file (dName : String) (parent : Option Nat)
  | pkg (main : String) (parent : Option Nat)
  | dir (dName : String) (parent : Option Nat) (entries : List (String × Nat))
  deriving DecidableEq, Repr

/-- A heap of dirent objects, addressed by id. -/
def Heap : Type := Nat → Option DirentObj

/-- Point update of a heap. -/
def hset (h : Heap) (i : Nat) (o : DirentObj) : Heap :=
  fun j => if j = i then some o else h j

/-- Reads `dirent.dName` (a `Package` constructor pins it to `"package.json"`). -/
def dNameOf : DirentObj → String
  | .file n _ => n
  | .pkg _ _ => "package.json"
  | .dir n _ _ => n

/-- Reads `dirent.parent` as stored on the object. -/
def parentOfObj : DirentObj → Option Nat
  | .file _ p => p
  | .pkg _ p => p
  | .dir _ p _ => p

/-- Assignment `dirent.parent = q`. -/
def setParent : DirentObj → Option Nat → DirentObj
  | .file n _, q => .file n q
  | .pkg m _, q => .pkg m q
  | .dir n _ es, q => .dir n q es

/-- Reads `dirent.parent` through the heap (`none` when the id dangles). -/
def parentAt (h : Heap) (i : Nat) : Option Nat :=
  match h i with
  | some o => parentOfObj o
  | none => none

/-- The `entries` object of a directory id (`[]` when not a directory). -/
def entriesAt (h : Heap) (i : Nat) : List (String × Nat) :=
  match h i with
  | some (.dir _ _ es) => es
  | _ => []

/-- JS property read `entries[k]`: first binding of `k`. -/
def lookupEntry : List (String × Nat) → String → Option Nat
  | [], _ => none
  | (k', v) :: rest, k => if k' = k then some v else lookupEntry rest k

/-- JS `k in entries`. -/
def hasKey (es : List (String × Nat)) (k : String) : Bool :=
  (lookupEntry es k).isSome

/-- JS property write `entries[k] = v`: overwrite in place, else append. -/
def setEntry : List (String × Nat) → String → Nat → List (String × Nat)
  | [], k, v => [(k, v)]
  | (k', v') :: rest, k, v =>
      if k' = k then (k, v) :: rest else (k', v') :: setEntry rest k v

/-- JS `delete entries[k]`: the binding of `k` disappears. -/
def delEntry : List (String × Nat) → String → List (String × Nat)
  | [], _ => []
  | (k', v) :: rest, k =>
      if k' = k then delEntry rest k else (k', v) :: delEntry rest k

/-- Left-to-right scan deleting the first occurrence of `.js`. -/
def stripJsOnce : List Char → List Char
  | '.' :: 'j' :: 's' :: rest => rest
  | c :: rest => c :: stripJsOnce rest
  | [] => []

/-- JS `s.replace('.js', '')` with a *string* pattern replaces only the
first occurrence of `".js"` (it is not a suffix strip). -/
def replaceFirstJs (s : String) : String :=
  ⟨stripJsOnce s.data⟩

/-- Models `Directory.add` for one dirent: `dirent.parent = this;
this.entries[dirent.dName] = dirent`. Only a `Directory` has this method;
the non-directory fallbacks are unreachable under well-kinded use. -/
def addOne (h : Heap) (d : Nat) (x : Nat) : Heap :=
  match h x with
  | some xo =>
    match hset h x (setParent xo (some d)) d with
    | some (.dir n p es) =>
        hset (hset h x (setParent xo (some d))) d
          (.dir n p (setEntry es (dNameOf xo) x))
    | _ => hset h x (setParent xo (some d))
  | none => h

/-- Models `Directory.add(...dirents)`: the source loops `for (const dirent of dirents)`. -/
def addMany (h : Heap) (d : Nat) (xs : List Nat) : Heap :=
  xs.foldl (fun hh x => addOne hh d x) h

/-- Models `Directory.rm(dName)`: `return delete this.entries[dName]`.
In JS, `delete` on a plain object's property evaluates to `true` both when
the (configurable) property existed and when it was absent, so `rm`
returns `true` unconditionally and never raises. -/
def rmOp (h : Heap) (d : Nat) (k : String) : Heap × Bool :=
  match h d with
  | some (.dir n p es) => (hset h d (.dir n p (delEntry es k)), true)
  | _ => (h, true)

/-- Errors a resolution run can surface with.
`notFound` is `RequestHandler.throwNotFound` (a `ReferenceError` carrying
the target name); `typeError` models the JS `TypeError` raised when an
unchecked `as Directory` / `as Package` cast is wrong and a method or
field of the assumed class is then used; `outOfFuel` is a model artifact
standing for a traversal longer than the supplied fuel (the source
recursion is bounded only by the parent chain). -/
inductive RErr : Type where
  | notFound (target : String)
  | typeError
  | outOfFuel
  deriving DecidableEq, Repr

/-- Models `RequestHandler.resolveAsModule(mod)`:
```
if (mod.hasPackage()) {
  const pkg = mod.entries['package.json'] as Package
  if (mod.hasFile(pkg.main.replace('.js', ''))) {
    return mod.entries[pkg.main] as File     // may be undefined!
  }
}
if (mod.hasFile('index')) { return mod.entries['index.js'] as File }
```
`hasFile(x)` tests `x + ".js" in entries`; `hasPackage()` tests
`'package.json' in entries`. Note the main-branch `return` fires even when
`entries[pkg.main]` is absent (yielding `undefined`, i.e. `none`), which
skips the index fallback. Reading `.main` on a non-`Package` gives
`undefined`, and `undefined.replace` throws — `typeError`. Calling the
`has*` methods on a non-`Directory` likewise throws. -/
def resolveAsModule (h : Heap) (modId : Nat) : Except RErr (Option Nat) :=
  match h modId with
  | some (.dir _ _ mes) =>
    match lookupEntry mes "package.json" with
    | some pkgId =>
      match h pkgId with
      | some (.pkg main _) =>
        if hasKey mes (replaceFirstJs main ++ ".js") then
          .ok (lookupEntry mes main)
        else if hasKey mes "index.js" then .ok (lookupEntry mes "index.js")
        else .ok none
      | _ => .error .typeError
    | none =>
      if hasKey mes "index.js" then .ok (lookupEntry mes "index.js")
      else .ok none
  | _ => .error .typeError

/-- Models `RequestHandler.handleRequest(target)` with `tryNext` inlined
(`tryNext` throws not-found at the root, else reassigns `this.dir` to the
parent and recurses).  One unit of fuel per directory level.
```
if (!('node_modules' in this.dir.entries)) return this.tryNext(target)
const nodeModules = this.dir.entries['node_modules'] as Directory
if (nodeModules.hasFile(target)) return nodeModules.entries[target+'.js'] as File
if (nodeModules.hasDirectory(target)) {        // just `target in entries`!
  const targetModule = nodeModules.entries[target] as Directory
  const resolvedAsModule = this.resolveAsModule(targetModule)
  if (resolvedAsModule) return resolvedAsModule
}
return this.tryNext(target)
``` -/
def handleRequest (h : Heap) : Nat → Nat → String → Except RErr Nat × Heap
  | 0, _, _ => (.error .outOfFuel, h)
  | fuel + 1, dirId, t =>
    match h dirId with
    | some (.dir _ par es) =>
      match lookupEntry es "node_modules" with
      | none =>
        (match par with
         | none => (.error (.notFound t), h)
         | some p => handleRequest h fuel p t)
      | some nmId =>
        match h nmId with
        | some (.dir _ _ nes) =>
          match lookupEntry nes (t ++ ".js") with
          | some f => (.ok f, h)
          | none =>
            match lookupEntry nes t with
            | some modId =>
              match resolveAsModule h modId with
              | .ok (some f) => (.ok f, h)
              | .ok none =>
                (match par with
                 | none => (.error (.notFound t), h)
                 | some p => handleRequest h fuel p t)
              | .error e => (.error e, h)
            | none =>
              (match par with
               | none => (.error (.notFound t), h)
               | some p => handleRequest h fuel p t)
        | _ => (.error .typeError, h)
    | _ => (.error .typeError, h)

/-- Models `File.request(target)` (inherited by `Package`): throw not-found when
the file has no parent, else hand the parent directory to a fresh
`RequestHandler`. A `Directory` has no `request` method (`typeError`). -/
def requestS (h : Heap) (fuel : Nat) (x : Nat) (t : String) :
    Except RErr Nat × Heap :=
  match h x with
  | some (.file _ none) => (.error (.notFound t), h)
  | some (.file _ (some p)) => handleRequest h fuel p t
  | some (.pkg _ none) => (.error (.notFound t), h)
  | some (.pkg _ (some p)) => handleRequest h fuel p t
  | _ => (.error .typeError, h)

/-- What one directory level of `handleRequest` yields before escalation:
`.ok (some f)` when this level resolves to `f`, `.ok none` when the level
falls through to `tryNext`, `.error` when the level crashes. -/
def levelResolve (h : Heap) (dirId : Nat) (t : String) :
    Except RErr (Option Nat) :=
  match h dirId with
  | some (.dir _ _ es) =>
    match lookupEntry es "node_modules" with
    | none => .ok none
    | some nmId =>
      match h nmId with
      | some (.dir _ _ nes) =>
        match lookupEntry nes (t ++ ".js") with
        | some f => .ok (some f)
        | none =>
          match lookupEntry nes t with
          | some modId => resolveAsModule h modId
          | none => .ok none
      | _ => .error .typeError
  | _ => .error .typeError

/-- Chain check `chainOk h ds`: `ds` lists consecutive directories linked by `parent`
pointers (each non-final element is a directory whose `parent` is the next
element; the final element is a directory). -/
def chainOk (h : Heap) : List Nat → Bool
  | [] => true
  | [d] =>
    match h d with
    | some (.dir _ _ _) => true
    | _ => false
  | d :: p :: rest =>
    (match h d with
     | some (.dir _ (some q) _) => q == p
     | _ => false) && chainOk h (p :: rest)

/-- The last directory of the chain is the tree root (`parent` unset). -/
def rootEnd (h : Heap) : List Nat → Bool
  | [] => false
  | [d] =>
    match h d with
    | some (.dir _ none _) => true
    | _ => false
  | _ :: rest => rootEnd h rest

/-- First level of the chain that resolves (error levels never resolve). -/
def firstResolve (h : Heap) (t : String) : List Nat → Option Nat
  | [] => none
  | d :: rest =>
    match levelResolve h d t with
    | .ok (some f) => some f
    | _ => firstResolve h t rest

/-- A client-visible mutation: `dir.add(...dirents)` or `dir.rm(name)`. -/
inductive Op : Type where
  | add (d : Nat) (xs : List Nat)
  | rm (d : Nat) (name : String)

def applyOp (h : Heap) : Op → Heap
  | .add d xs => addMany h d xs
  | .rm d name => (rmOp h d name).1

def run (h : Heap) (ops : List Op) : Heap := ops.foldl applyOp h

/-- The spec invariant: every child in a directory's entries mapping has
its `parent` back-reference set to that directory. -/
def ParentInv (h : Heap) : Prop :=
  ∀ d n p es, h d = some (.dir n p es) →
    ∀ k x, lookupEntry es k = some x → parentAt h x = some d

/-- Each dirent of an `add` call is unattached at the moment the loop
body reaches it. -/
def addGuard (h : Heap) (d : Nat) : List Nat → Bool
  | [] => true
  | x :: xs => (parentAt h x == none) && addGuard (addOne h d x) d xs

def GuardOk (h : Heap) : Op → Prop
  | .add d xs => addGuard h d xs = true
  | .rm _ _ => True

def Guarded (h : Heap) : List Op → Prop
  | [] => True
  | op :: ops => GuardOk h op ∧ Guarded (applyOp h op) ops

/-- Dynamic method dispatch for `add`: only the `Directory` class defines
it, so invoking it on a `File` or `Package` receiver is the JS runtime
failure `recv.add is not a function`. `specStructural` is the error kind
the spec claims (`"entry has no children"`); no code path produces it. -/
inductive JsCallErr : Type where
  | notAFunction
  | specStructural
  deriving DecidableEq, Repr

def invokeAdd (h : Heap) (recv : Nat) (xs : List Nat) : Except JsCallErr Heap :=
  match h recv with
  | some (.dir _ _ _) => .ok (addMany h recv xs)
  | _ => .error .notAFunction

def invokeRm (h : Heap) (recv : Nat) (k : String) :
    Except JsCallErr (Heap × Bool) :=
  match h recv with
  | some (.dir _ _ _) => .ok (rmOp h recv k)
  | _ => .error .notAFunction

/-! ### Concrete directory trees used to instantiate the theorems -/

/-- Tree `root/{node_modules/{t.js, t/index.js}, req.js}`: the nearest
`node_modules` holds both a file `t.js` and a module directory `t`. -/
def treeFilePrec : Heap := fun i =>
  match i with
  | 0 => some (.dir "root" none [("node_modules", 1), ("req.js", 4)])
  | 1 => some (.dir "node_modules" (some 0) [("t.js", 2), ("t", 3)])
  | 2 => some (.file "t.js" (some 1))
  | 3 => some (.dir "t" (some 1) [("index.js", 5)])
  | 4 => some (.file "req.js" (some 0))
  | 5 => some (.file "index.js" (some 3))
  | _ => none

/-- Tree `root/{node_modules/t.js, mid/{node_modules/t.js, req.js}}`: the
target is resolvable both in `mid`'s `node_modules` (id 7) and in
`root`'s (id 2). -/
def treeNested : Heap := fun i =>
  match i with
  | 0 => some (.dir "root" none [("node_modules", 1), ("mid", 5)])
  | 1 => some (.dir "node_modules" (some 0) [("t.js", 2)])
  | 2 => some (.file "t.js" (some 1))
  | 4 => some (.file "req.js" (some 5))
  | 5 => some (.dir "mid" (some 0) [("node_modules", 6), ("req.js", 4)])
  | 6 => some (.dir "node_modules" (some 5) [("t.js", 7)])
  | 7 => some (.file "t.js" (some 6))
  | _ => none

/-- Tree `root/{node_modules/target/{package.json(main:"main"), main.js,
index.js}, src/req.js}`: the package `main` is written without its `.js`
suffix. -/
def treeMainNoExt : Heap := fun i =>
  match i with
  | 0 => some (.dir "root" none [("node_modules", 1), ("src", 6)])
  | 1 => some (.dir "node_modules" (some 0) [("target", 2)])
  | 2 => some (.dir "target" (some 1)
      [("package.json", 3), ("main.js", 4), ("index.js", 5)])
  | 3 => some (.pkg "main" (some 2))
  | 4 => some (.file "main.js" (some 2))
  | 5 => some (.file "index.js" (some 2))
  | 6 => some (.dir "src" (some 0) [("req.js", 7)])
  | 7 => some (.file "req.js" (some 6))
  | _ => none

/-- Tree `root/src/req.js` with no `node_modules` anywhere, plus a detached
file (id 9). -/
def treeNoModules : Heap := fun i =>
  match i with
  | 0 => some (.dir "root" none [("src", 1)])
  | 1 => some (.dir "src" (some 0) [("req.js", 2)])
  | 2 => some (.file "req.js" (some 1))
  | 9 => some (.file "stray.js" none)
  | _ => none

/-- Tree `root/{node_modules/tgt, req.js}` where the entry keyed `tgt` inside
`node_modules` is a `File`, not a module directory. -/
def treeBadTargetKind : Heap := fun i =>
  match i with
  | 0 => some (.dir "root" none [("node_modules", 1), ("req.js", 4)])
  | 1 => some (.dir "node_modules" (some 0) [("tgt", 2)])
  | 2 => some (.file "tgt" (some 1))
  | 4 => some (.file "req.js" (some 0))
  | _ => none

/-- Tree `root/{node_modules, src/req.js}` where the entry keyed
`node_modules` is a `File`, not a directory. -/
def treeBadNmKind : Heap := fun i =>
  match i with
  | 0 => some (.dir "root" none [("node_modules", 1), ("src", 2)])
  | 1 => some (.file "node_modules" (some 0))
  | 2 => some (.dir "src" (some 0) [("req.js", 3)])
  | 3 => some (.file "req.js" (some 2))
  | _ => none

/-- A single directory with no entries. -/
def dirOnly : Heap := fun i =>
  match i with
  | 0 => some (.dir "d" none [])
  | _ => none

/-- A directory and a detached file. -/
def dirAndFile : Heap := fun i =>
  match i with
  | 0 => some (.dir "d" none [])
  | 1 => some (.file "x.js" none)
  | _ => none

/-- Two directories and a detached file. -/
def twoDirsFile : Heap := fun i =>
  match i with
  | 0 => some (.dir "a" none [])
  | 1 => some (.dir "b" none [])
  | 2 => some (.file "x.js" none)
  | _ => none

/-- Leaf dirents only: two files and a package descriptor. -/
def leavesOnly : Heap := fun i =>
  match i with
  | 1 => some (.file "f.js" none)
  | 2 => some (.file "g.js" none)
  | 3 => some (.pkg "index.js" none)
  | _ => none

/-! ### Basic lemmas about entry lists and the heap -/

lemma lookup_setEntry (es : List (String × Nat)) (k0 : String) (v : Nat)
    (k : String) :
    lookupEntry (setEntry es k0 v) k =
      if k = k0 then some v else lookupEntry es k := by
  induction es with
  | nil =>
    by_cases hk : k0 = k
    · subst hk; simp [setEntry, lookupEntry]
    · have hk2 : ¬ k = k0 := fun hcontra => hk hcontra.symm
      simp [setEntry, lookupEntry, hk, hk2]
  | cons kv rest ih =>
    obtain ⟨k', v'⟩ := kv
    by_cases hk0 : k' = k0
    · subst hk0
      by_cases hk : k' = k
      · subst hk; simp [setEntry, lookupEntry]
      · have hk2 : ¬ k = k' := fun hcontra => hk hcontra.symm
        simp [setEntry, lookupEntry, hk, hk2]
    · by_cases hk : k' = k
      · subst hk
        have hk2 : ¬ k' = k0 := hk0
        simp [setEntry, lookupEntry, hk2]
      · simp [setEntry, lookupEntry, hk0, hk, ih]

lemma lookup_delEntry (es : List (String × Nat)) (k0 k : String) :
    lookupEntry (delEntry es k0) k =
      if k = k0 then none else lookupEntry es k := by
  induction es with
  | nil => simp [delEntry, lookupEntry]
  | cons kv rest ih =>
    obtain ⟨k', v'⟩ := kv
    by_cases hk0 : k' = k0
    · subst hk0
      by_cases hk : k' = k
      · subst hk; simp [delEntry, lookupEntry, ih]
      · have hk2 : ¬ k = k' := fun hcontra => hk hcontra.symm
        simp [delEntry, lookupEntry, hk, hk2, ih]
    · by_cases hk : k' = k
      · subst hk
        have hk2 : ¬ k' = k0 := hk0
        simp [delEntry, lookupEntry, hk2, ih]
      · simp [delEntry, lookupEntry, hk0, hk, ih]

lemma delEntry_absent (es : List (String × Nat)) (k : String)
    (h : hasKey es k = false) : delEntry es k = es := by
  induction es with
  | nil => rfl
  | cons kv rest ih =>
    obtain ⟨k', v'⟩ := kv
    by_cases hk : k' = k
    · subst hk
      simp [hasKey, lookupEntry] at h
    · simp [hasKey, lookupEntry, hk] at h
      simp [delEntry, hk, ih (by simp [hasKey, h])]

lemma hset_at (h : Heap) (i : Nat) (o : DirentObj) : hset h i o i = some o := by
  simp [hset]

lemma hset_ne (h : Heap) (i : Nat) (o : DirentObj) (j : Nat) (hji : j ≠ i) :
    hset h i o j = h j := by
  simp [hset, hji]

lemma parentOfObj_setParent (o : DirentObj) (q : Option Nat) :
    parentOfObj (setParent o q) = q := by
  cases o <;> rfl

lemma parentAt_hset (h : Heap) (i : Nat) (o : DirentObj) (j : Nat) :
    parentAt (hset h i o) j = if j = i then parentOfObj o else parentAt h j := by
  by_cases hji : j = i
  · subst hji; simp [parentAt, hset]
  · simp [parentAt, hset, hji]

/-- Overwriting only the entries of a directory object changes no
`parent` back-reference anywhere. -/
lemma parentAt_hset_entries (h : Heap) (d : Nat) (n : String)
    (p : Option Nat) (es es' : List (String × Nat))
    (hd : h d = some (.dir n p es)) (z : Nat) :
    parentAt (hset h d (.dir n p es')) z = parentAt h z := by
  by_cases hz : z = d
  · subst hz; simp [parentAt, hset, hd, parentOfObj]
  · simp [parentAt, hset, hz]

/-! ### Preservation of the parent invariant -/

/-- Writing `dirent.parent = d` for an unattached dirent keeps the
invariant (the dirent is in no entries mapping, so no directory's
obligation mentions it). -/
lemma inv_parent_update (h : Heap) (x : Nat) (xo : DirentObj) (q : Nat)
    (inv : ParentInv h) (hx : h x = some xo) (hfresh : parentAt h x = none) :
    ParentInv (hset h x (setParent xo (some q))) := by
  intro d' n' p' es' hd' k y hy
  rw [parentAt_hset]
  by_cases hdx : d' = x
  · subst hdx
    rw [hset_at] at hd'
    injection hd' with hobj
    cases xo with
    | file nn pp => exact absurd hobj (by simp [setParent])
    | pkg mm pp => exact absurd hobj (by simp [setParent])
    | dir nn pp ees =>
      simp only [setParent] at hobj
      injection hobj with h1 h2 h3
      subst h3
      have hyy := inv d' nn pp ees hx k y hy
      by_cases hyx : y = d'
      · subst hyx; rw [hfresh] at hyy; exact Option.noConfusion hyy
      · rw [if_neg hyx]; exact hyy
  · rw [hset_ne _ _ _ _ hdx] at hd'
    have hyy := inv d' n' p' es' hd' k y hy
    by_cases hyx : y = x
    · subst hyx; rw [hfresh] at hyy; exact Option.noConfusion hyy
    · rw [if_neg hyx]; exact hyy

/-- Inserting `x` into directory `d`'s entries keeps the invariant when
`x`'s parent already points at `d`. -/
lemma inv_entries_update (h1 : Heap) (d x : Nat) (n : String)
    (p : Option Nat) (es : List (String × Nat)) (nm : String)
    (inv1 : ParentInv h1) (hd1 : h1 d = some (.dir n p es))
    (hpx : parentAt h1 x = some d) :
    ParentInv (hset h1 d (.dir n p (setEntry es nm x))) := by
  intro d'' n'' p'' es'' hd'' k y hy
  rw [parentAt_hset_entries h1 d n p es _ hd1]
  by_cases hdd : d'' = d
  · subst hdd
    rw [hset_at] at hd''
    injection hd'' with hobj
    injection hobj with h1eq h2eq h3eq
    subst h3eq
    rw [lookup_setEntry] at hy
    by_cases hk : k = nm
    · rw [if_pos hk] at hy
      injection hy with hyx
      subst hyx
      exact hpx
    · rw [if_neg hk] at hy
      exact inv1 d'' n p es hd1 k y hy
  · rw [hset_ne _ _ _ _ hdd] at hd''
    exact inv1 d'' n'' p'' es'' hd'' k y hy

/-- Adding a single unattached dirent preserves the invariant. -/
lemma addOne_inv (h : Heap) (d x : Nat) (inv : ParentInv h)
    (hfresh : parentAt h x = none) : ParentInv (addOne h d x) := by
  unfold addOne
  cases hx : h x with
  | none => exact inv
  | some xo =>
    dsimp only
    have inv1 : ParentInv (hset h x (setParent xo (some d))) :=
      inv_parent_update h x xo d inv hx hfresh
    have hpx : parentAt (hset h x (setParent xo (some d))) x = some d := by
      rw [parentAt_hset]
      simp [parentOfObj_setParent]
    cases hd1 : hset h x (setParent xo (some d)) d with
    | none => exact inv1
    | some o =>
      cases o with
      | file _ _ => exact inv1
      | pkg _ _ => exact inv1
      | dir n p es =>
        exact inv_entries_update _ d x n p es (dNameOf xo) inv1 hd1 hpx

/-- Removal preserves the invariant: it shrinks one entries
mapping and touches no parent back-reference. -/
lemma rm_inv (h : Heap) (d : Nat) (k : String) (inv : ParentInv h) :
    ParentInv (rmOp h d k).1 := by
  unfold rmOp
  cases hd : h d with
  | none => exact inv
  | some o =>
    cases o with
    | file _ _ => exact inv
    | pkg _ _ => exact inv
    | dir n p es =>
      dsimp only
      intro d' n' p' es' hd' k' y hy
      rw [parentAt_hset_entries h d n p es _ hd]
      by_cases hdd : d' = d
      · subst hdd
        rw [hset_at] at hd'
        injection hd' with hobj
        injection hobj with h1eq h2eq h3eq
        subst h3eq
        rw [lookup_delEntry] at hy
        by_cases hk : k' = k
        · rw [if_pos hk] at hy; exact Option.noConfusion hy
        · rw [if_neg hk] at hy
          exact inv d' n p es hd k' y hy
      · rw [hset_ne _ _ _ _ hdd] at hd'
        exact inv d' n' p' es' hd' k' y hy

/-- Multi-add preserves the invariant when every dirent
is unattached as the loop reaches it. -/
lemma addMany_inv (d : Nat) : ∀ (xs : List Nat) (h : Heap), ParentInv h →
    addGuard h d xs = true → ParentInv (addMany h d xs) := by
  intro xs
  induction xs with
  | nil => intro h inv _; exact inv
  | cons x rest ih =>
    intro h inv hg
    simp only [addGuard, Bool.and_eq_true, beq_iff_eq] at hg
    have inv1 := addOne_inv h d x inv hg.1
    have hstep : addMany h d (x :: rest) = addMany (addOne h d x) d rest := rfl
    rw [hstep]
    exact ih (addOne h d x) inv1 hg.2

/-! ### Lemmas about the resolution walk -/

/-- The resolution walk writes nothing: the heap it returns is the heap it
was given, whatever the outcome. -/
lemma handle_pure : ∀ (fuel : Nat) (h : Heap) (d : Nat) (t : String),
    (handleRequest h fuel d t).2 = h := by
  intro fuel
  induction fuel with
  | zero => intro h d t; rfl
  | succ n ih =>
    intro h d t
    simp only [handleRequest]
    repeat' split
    all_goals first | rfl | exact ih h _ t

/-- One unfolding of the walk at a directory level, phrased through
`levelResolve`. -/
lemma handle_step (h : Heap) (fuel dirId : Nat) (t : String) (n : String)
    (par : Option Nat) (es : List (String × Nat))
    (hd : h dirId = some (.dir n par es)) :
    handleRequest h (fuel + 1) dirId t =
      match levelResolve h dirId t with
      | .ok (some f) => (.ok f, h)
      | .ok none =>
        match par with
        | none => (.error (.notFound t), h)
        | some p => handleRequest h fuel p t
      | .error e => (.error e, h) := by
  simp only [handleRequest, levelResolve, hd]
  rcases hnm : lookupEntry es "node_modules" with _ | nmId
  · cases par <;> rfl
  · try dsimp only
    rcases ho : h nmId with _ | o
    · rfl
    · try dsimp only
      rcases o with ⟨fn, fp⟩ | ⟨pm, pp⟩ | ⟨dn, dp, nes⟩
      · rfl
      · rfl
      · try dsimp only
        rcases hf : lookupEntry nes (t ++ ".js") with _ | f
        · try dsimp only
          rcases hm : lookupEntry nes t with _ | modId
          · cases par <;> rfl
          · try dsimp only
            rcases hr : resolveAsModule h modId with e | r
            · rfl
            · rcases r with _ | f
              · cases par <;> rfl
              · rfl
        · rfl

/-- A level with no `node_modules` child falls through. -/
lemma level_no_nm (h : Heap) (d : Nat) (t n : String) (p : Option Nat)
    (es : List (String × Nat)) (hd : h d = some (.dir n p es))
    (hnm : lookupEntry es "node_modules" = none) :
    levelResolve h d t = .ok none := by
  simp [levelResolve, hd, hnm]

/-- A level that yields an `.ok` outcome is a directory. -/
lemma levelResolve_dir (h : Heap) (d : Nat) (t : String) (r : Option Nat)
    (hl : levelResolve h d t = .ok r) :
    ∃ n p es, h d = some (.dir n p es) := by
  unfold levelResolve at hl
  cases hd : h d with
  | none => rw [hd] at hl; simp at hl
  | some o =>
    cases o with
    | dir n p es => exact ⟨n, p, es, rfl⟩
    | file nn pp => rw [hd] at hl; simp at hl
    | pkg mm pp => rw [hd] at hl; simp at hl

/-- Skipping an initial segment of ancestor levels that all fall through
costs exactly one unit of fuel per level. -/
lemma walk_pre : ∀ (pre : List Nat) (h : Heap) (t : String) (dm : Nat)
    (rest : List Nat) (fuel d0 : Nat),
    (pre ++ dm :: rest).head? = some d0 →
    chainOk h (pre ++ dm :: rest) = true →
    (∀ d ∈ pre, levelResolve h d t = .ok none) →
    handleRequest h (pre.length + (fuel + 1)) d0 t =
      handleRequest h (fuel + 1) dm t := by
  intro pre
  induction pre with
  | nil =>
    intro h t dm rest fuel d0 hhead _ _
    simp at hhead
    subst hhead
    simp
  | cons d pre' ih =>
    intro h t dm rest fuel d0 hhead hchain hlv
    simp at hhead
    subst hhead
    cases hL : pre' ++ dm :: rest with
    | nil => exact absurd hL (List.append_ne_nil_of_right_ne_nil pre' (by simp))
    | cons q tail =>
      have hchain2 : chainOk h (d :: q :: tail) = true := by
        rw [List.cons_append, hL] at hchain
        exact hchain
      simp only [chainOk, Bool.and_eq_true] at hchain2
      obtain ⟨hlink, hchainq⟩ := hchain2
      cases hd : h d with
      | none => rw [hd] at hlink; simp at hlink
      | some o =>
        cases o with
        | file _ _ => rw [hd] at hlink; simp at hlink
        | pkg _ _ => rw [hd] at hlink; simp at hlink
        | dir n par es =>
          cases par with
          | none => rw [hd] at hlink; simp at hlink
          | some q' =>
            rw [hd] at hlink
            simp only [beq_iff_eq] at hlink
            rw [hlink] at hd
            have hlv0 : levelResolve h d t = .ok none :=
              hlv d (List.mem_cons_self d pre')
            have harith : (d :: pre').length + (fuel + 1) =
                (pre'.length + (fuel + 1)) + 1 := by
              simp [List.length_cons]
              omega
            rw [harith,
              handle_step h (pre'.length + (fuel + 1)) d t n (some q) es hd,
              hlv0]
            have := ih h t dm rest fuel q (by rw [hL]; rfl)
              (by rw [hL]; exact hchainq)
              (fun dd hdd => hlv dd (List.mem_cons_of_mem d hdd))
            exact this

/-- A clean chain ending at the tree root resolves to the first level
that yields a file, and raises not-found when no level does. -/
lemma walk_master : ∀ (rest : List Nat) (d0 : Nat) (h : Heap) (t : String),
    chainOk h (d0 :: rest) = true →
    rootEnd h (d0 :: rest) = true →
    (∀ d ∈ d0 :: rest, ∃ r, levelResolve h d t = Except.ok r) →
    ∀ fuel, handleRequest h ((d0 :: rest).length + fuel) d0 t =
      ((match firstResolve h t (d0 :: rest) with
        | some f => Except.ok f
        | none => Except.error (.notFound t)), h) := by
  intro rest
  induction rest with
  | nil =>
    intro d0 h t hchain hroot hclean fuel
    obtain ⟨r, hr⟩ := hclean d0 (List.mem_cons_self d0 [])
    obtain ⟨n, p, es, hd⟩ := levelResolve_dir h d0 t r hr
    have hp : p = none := by
      simp only [rootEnd] at hroot
      rw [hd] at hroot
      cases p with
      | none => rfl
      | some _ => simp at hroot
    subst hp
    have harith : ([d0] : List Nat).length + fuel = fuel + 1 := by
      simp [Nat.add_comm]
    rw [harith, handle_step h fuel d0 t n none es hd, hr]
    cases r with
    | some f => simp [firstResolve, hr]
    | none => simp [firstResolve, hr]
  | cons d1 rest' ih =>
    intro d0 h t hchain hroot hclean fuel
    simp only [chainOk, Bool.and_eq_true] at hchain
    obtain ⟨hlink, hchain1⟩ := hchain
    cases hd : h d0 with
    | none => rw [hd] at hlink; simp at hlink
    | some o =>
      cases o with
      | file _ _ => rw [hd] at hlink; simp at hlink
      | pkg _ _ => rw [hd] at hlink; simp at hlink
      | dir n par es =>
        cases par with
        | none => rw [hd] at hlink; simp at hlink
        | some q =>
          rw [hd] at hlink
          simp only [beq_iff_eq] at hlink
          rw [hlink] at hd
          have hroot1 : rootEnd h (d1 :: rest') = true := hroot
          have hclean1 : ∀ d ∈ d1 :: rest', ∃ r, levelResolve h d t = Except.ok r :=
            fun dd hdd => hclean dd (List.mem_cons_of_mem d0 hdd)
          obtain ⟨r, hr⟩ := hclean d0 (List.mem_cons_self d0 (d1 :: rest'))
          have harith : (d0 :: d1 :: rest').length + fuel =
              ((d1 :: rest').length + fuel) + 1 := by
            simp [List.length_cons]
            omega
          rw [harith,
            handle_step h ((d1 :: rest').length + fuel) d0 t n (some d1) es hd,
            hr]
          cases r with
          | some f => simp [firstResolve, hr]
          | none =>
            have := ih d1 h t hchain1 hroot1 hclean1 fuel
            dsimp only
            rw [this]
            simp [firstResolve, hr]

/-- Under clean levels, no level resolves iff every level falls through. -/
lemma firstResolve_none_iff : ∀ (ds : List Nat) (h : Heap) (t : String),
    (∀ d ∈ ds, ∃ r, levelResolve h d t = Except.ok r) →
    (firstResolve h t ds = none ↔ ∀ d ∈ ds, levelResolve h d t = .ok none) := by
  intro ds h t
  induction ds with
  | nil => intro _; simp [firstResolve]
  | cons d rest ih =>
    intro hclean
    obtain ⟨r, hr⟩ := hclean d (List.mem_cons_self d rest)
    have ihh := ih (fun d' hd' => hclean d' (List.mem_cons_of_mem d hd'))
    cases r with
    | some f =>
      simp only [firstResolve, hr]
      constructor
      · intro hcontra; exact Option.noConfusion hcontra
      · intro hall
        have hcontra := hall d (List.mem_cons_self d rest)
        rw [hr] at hcontra
        simp at hcontra
    | none =>
      simp only [firstResolve, hr]
      constructor
      · intro h0 d' hd'
        rcases List.mem_cons.mp hd' with hd'' | hmem
        · rw [hd'']; exact hr
        · exact (ihh.mp h0) d' hmem
      · intro hall
        exact ihh.mpr (fun d' hd' => hall d' (List.mem_cons_of_mem d hd'))

/-! ### Claim theorems -/

/-- Claim C1: For every directory tree and target name, if the nearest
ancestor `node_modules` directory (the one found at the end of the
initial run `pre` of ancestors that have no `node_modules` child)
contains both a file keyed `t ++ ".js"` and a directory keyed `t`,
`request t` returns the file: the file check of `handleRequest` (step 2)
precedes the module-directory check (step 3) within a single
`node_modules` directory. -/
theorem chainResp_C1 (h : Heap) (x : Nat) (xn t : String) (d0 : Nat)
    (pre : List Nat) (dk nm f m : Nat) (fuel : Nat)
    (hx : h x = some (.file xn (some d0)))
    (hhead : (pre ++ [dk]).head? = some d0)
    (hchain : chainOk h (pre ++ [dk]) = true)
    (hpre : ∀ d ∈ pre, ∃ n p es, h d = some (.dir n p es) ∧
      lookupEntry es "node_modules" = none)
    (hdk : ∃ n p es, h dk = some (.dir n p es) ∧
      lookupEntry es "node_modules" = some nm)
    (hnm : ∃ n p nes, h nm = some (.dir n p nes) ∧
      lookupEntry nes (t ++ ".js") = some f ∧ lookupEntry nes t = some m)
    (hfile : ∃ fp, h f = some (.file (t ++ ".js") fp))
    (hmod : ∃ mn mp mes, h m = some (.dir mn mp mes)) :
    requestS h (pre.length + (fuel + 1)) x t = (.ok f, h) := by
  obtain ⟨n1, p1, es1, hdk1, hdk2⟩ := hdk
  obtain ⟨n2, p2, nes, hnm1, hnm2, hnm3⟩ := hnm
  have hreq : requestS h (pre.length + (fuel + 1)) x t =
      handleRequest h (pre.length + (fuel + 1)) d0 t := by
    unfold requestS; rw [hx]
  rw [hreq]
  rw [walk_pre pre h t dk [] fuel d0 hhead hchain
    (fun d hd => by
      obtain ⟨n, p, es, h1, h2⟩ := hpre d hd
      exact level_no_nm h d t n p es h1 h2)]
  rw [handle_step h fuel dk t n1 p1 es1 hdk1]
  have hlv : levelResolve h dk t = .ok (some f) := by
    simp [levelResolve, hdk1, hdk2, hnm1, hnm2]
  rw [hlv]

/-- C1 at a concrete tree: in `treeFilePrec` the nearest `node_modules`
holds both the file `t.js` (id 2) and the module directory `t` (id 3,
itself resolvable through its index), and the request returns the file. -/
theorem chainResp_C1_witness :
    requestS treeFilePrec 1 4 "t" = (.ok 2, treeFilePrec) :=
  chainResp_C1 treeFilePrec 4 "req.js" "t" 0 [] 0 1 2 3 0
    rfl rfl (by decide)
    (fun d hd => absurd hd (List.not_mem_nil d))
    ⟨"root", none, [("node_modules", 1), ("req.js", 4)], rfl, rfl⟩
    ⟨"node_modules", some 0, [("t.js", 2), ("t", 3)], rfl, rfl, rfl⟩
    ⟨some 1, rfl⟩
    ⟨"t", some 1, [("index.js", 5)], rfl⟩

/-- Claim C2: For every tree and target, if the target is resolvable at the
ancestor level `dm` (depth `pre.length` above the requesting file's
parent), every closer level falls through, and the target is also
resolvable at some strictly deeper level `dd` of the chain, then
`request t` returns the result from the closer level `dm`: each
ancestor's `node_modules` is fully checked before escalating to the
parent, so the closest resolvable ancestor wins. -/
theorem chainResp_C2 (h : Heap) (x : Nat) (xn t : String) (d0 : Nat)
    (pre : List Nat) (dm : Nat) (post : List Nat) (f dd fd : Nat)
    (fuel : Nat)
    (hx : h x = some (.file xn (some d0)))
    (hhead : (pre ++ dm :: post).head? = some d0)
    (hchain : chainOk h (pre ++ dm :: post) = true)
    (hpre : ∀ d ∈ pre, levelResolve h d t = .ok none)
    (hdm : levelResolve h dm t = .ok (some f))
    (hdeep : dd ∈ post)
    (hdeepR : levelResolve h dd t = .ok (some fd)) :
    requestS h (pre.length + (fuel + 1)) x t = (.ok f, h) := by
  obtain ⟨n, p, es, hdir⟩ := levelResolve_dir h dm t (some f) hdm
  have hreq : requestS h (pre.length + (fuel + 1)) x t =
      handleRequest h (pre.length + (fuel + 1)) d0 t := by
    unfold requestS; rw [hx]
  rw [hreq]
  rw [walk_pre pre h t dm post fuel d0 hhead hchain hpre]
  rw [handle_step h fuel dm t n p es hdir]
  rw [hdm]

/-- C2 at a concrete tree: in `treeNested` the requester's own directory
`mid` has a `node_modules` resolving the target to id 7, the farther
ancestor `root` would resolve it to id 2, and the request returns id 7. -/
theorem chainResp_C2_witness :
    requestS treeNested 1 4 "t" = (.ok 7, treeNested) :=
  chainResp_C2 treeNested 4 "req.js" "t" 5 [] 5 [0] 7 0 2 0
    rfl rfl (by decide)
    (fun d hd => absurd hd (List.not_mem_nil d))
    rfl (by decide) rfl

/-- Claim C3 code bug: The claim — and the source's own flow comment
("check for `main` file. Return if found") — says a module directory
whose descriptor's `main`, suffix-stripped, names an existing file
resolves to that main file. In `treeMainNoExt` the module directory
(id 2) has `package.json` with `main = "main"` and the file `main.js`
(id 4) exists, so the `hasFile` check passes; but the code then returns
`entries["main"]`, which is absent, so `resolveAsModule` yields nothing,
the index fallback is skipped although `index.js` (id 5) exists, and the
whole request ends in not-found instead of returning the main file. -/
theorem chainResp_C3_bug :
    hasKey (entriesAt treeMainNoExt 2) (replaceFirstJs "main" ++ ".js") = true ∧
    lookupEntry (entriesAt treeMainNoExt 2) "main.js" = some 4 ∧
    lookupEntry (entriesAt treeMainNoExt 2) "index.js" = some 5 ∧
    resolveAsModule treeMainNoExt 2 = .ok none ∧
    (requestS treeMainNoExt 2 7 "target").1 = .error (.notFound "target") :=
  ⟨rfl, rfl, rfl, rfl, rfl⟩

/-- Claim C4 counterexample: The claim says `request` raises not-found
exactly when the file has no parent or the walk exhausts all ancestors,
and in every other case returns a file. In `treeBadTargetKind` the
requesting file (id 4) has a parent and the walk neither exhausts the
ancestors nor resolves: it crashes with a runtime type error when
`resolveAsModule` invokes directory methods on the `File` keyed `tgt`,
so the call neither returns a file nor raises the not-found error. -/
theorem chainResp_C4_cex :
    (requestS treeBadTargetKind 1 4 "tgt").1 = .error .typeError ∧
    (∀ f : Nat, (requestS treeBadTargetKind 1 4 "tgt").1 ≠ .ok f) ∧
    (∀ s : String, (requestS treeBadTargetKind 1 4 "tgt").1 ≠
      .error (.notFound s)) := by
  have h0 : (requestS treeBadTargetKind 1 4 "tgt").1 = .error .typeError := rfl
  refine ⟨h0, ?_, ?_⟩
  · intro f hcontra
    rw [h0] at hcontra
    exact Except.noConfusion hcontra
  · intro s hcontra
    rw [h0] at hcontra
    simp at hcontra

/-- Claim C4 amended: Provided every entry the walk consults as a
directory is one (each visited level yields a clean outcome rather than
a runtime type error), `request t` raises the not-found error carrying
`t` iff resolution fails: immediately when the requesting file has no
parent, and otherwise, walking the full ancestor chain `d0 :: ds` up to
the tree root, exactly when every level falls through; in every other
case it returns a file. -/
theorem chainResp_C4_amended (h : Heap) (x : Nat) (xn t : String) :
    (h x = some (.file xn none) →
      ∀ fuel, requestS h fuel x t = (.error (.notFound t), h)) ∧
    (∀ d0 ds fuel, h x = some (.file xn (some d0)) →
      chainOk h (d0 :: ds) = true →
      rootEnd h (d0 :: ds) = true →
      (∀ d ∈ d0 :: ds, ∃ r, levelResolve h d t = Except.ok r) →
      ((requestS h ((d0 :: ds).length + fuel) x t =
          (.error (.notFound t), h) ↔
        ∀ d ∈ d0 :: ds, levelResolve h d t = .ok none) ∧
       ((∃ d ∈ d0 :: ds, levelResolve h d t ≠ .ok none) →
        ∃ f, requestS h ((d0 :: ds).length + fuel) x t = (.ok f, h)))) := by
  constructor
  · intro hx fuel
    unfold requestS
    rw [hx]
  · intro d0 ds fuel hx hchain hroot hclean
    have hreq : requestS h ((d0 :: ds).length + fuel) x t =
        handleRequest h ((d0 :: ds).length + fuel) d0 t := by
      unfold requestS; rw [hx]
    have hm := walk_master ds d0 h t hchain hroot hclean fuel
    constructor
    · constructor
      · intro heq
        rw [hreq, hm] at heq
        cases hfr : firstResolve h t (d0 :: ds) with
        | some f => rw [hfr] at heq; simp at heq
        | none => exact (firstResolve_none_iff (d0 :: ds) h t hclean).mp hfr
      · intro hall
        rw [hreq, hm,
          (firstResolve_none_iff (d0 :: ds) h t hclean).mpr hall]
    · rintro ⟨d, hd, hne⟩
      cases hfr : firstResolve h t (d0 :: ds) with
      | none =>
        exact absurd ((firstResolve_none_iff (d0 :: ds) h t hclean).mp hfr d hd)
          hne
      | some f =>
        refine ⟨f, ?_⟩
        rw [hreq, hm, hfr]

/-- C4 (amended) at concrete trees: a detached file fails immediately
with not-found, and in `treeNoModules` (no `node_modules` on any
ancestor) the full walk from `src` through `root` fails with not-found
carrying the target. -/
theorem chainResp_C4_witness :
    requestS treeNoModules 3 9 "t" = (.error (.notFound "t"), treeNoModules) ∧
    requestS treeNoModules 2 2 "t" = (.error (.notFound "t"), treeNoModules) :=
  ⟨(chainResp_C4_amended treeNoModules 9 "stray.js" "t").1 rfl 3,
   ((chainResp_C4_amended treeNoModules 2 "req.js" "t").2 1 [0] 0
      rfl (by decide) (by decide)
      (fun d hd => by
        rcases List.mem_cons.mp hd with h1 | h2
        · subst h1; exact ⟨none, rfl⟩
        · rcases List.mem_cons.mp h2 with h3 | h4
          · subst h3; exact ⟨none, rfl⟩
          · exact absurd h4 (List.not_mem_nil d))).1.mpr
     (fun d hd => by
        rcases List.mem_cons.mp hd with h1 | h2
        · subst h1; exact rfl
        · rcases List.mem_cons.mp h2 with h3 | h4
          · subst h3; exact rfl
          · exact absurd h4 (List.not_mem_nil d))⟩

/-- Claim C5 counterexample: The claim says `rm` returns a truthy result
exactly when a child was present, and a falsy result for an absent name.
On the childless directory `dirOnly`, `rm "x"` finds no child keyed
`"x"` yet still returns `true` — JS `delete` evaluates to `true` for an
absent property — refuting both parts. -/
theorem chainResp_C5_cex :
    hasKey (entriesAt dirOnly 0) "x" = false ∧
    (rmOp dirOnly 0 "x").2 = true :=
  ⟨rfl, rfl⟩

/-- Claim C5 amended: `rm` deletes the child keyed by the name if
present, never raises, and removing an absent name is a no-op; but its
result is `true` regardless of presence (JS `delete` evaluates to `true`
for configurable and for absent properties alike), so the returned value
does not report whether a deletion occurred. -/
theorem chainResp_C5_amended (h : Heap) (d : Nat) (n : String)
    (p : Option Nat) (es : List (String × Nat)) (k : String)
    (hd : h d = some (.dir n p es)) :
    (rmOp h d k).2 = true ∧
    (rmOp h d k).1 d = some (.dir n p (delEntry es k)) ∧
    lookupEntry (entriesAt ((rmOp h d k).1) d) k = none ∧
    (hasKey es k = false → ∀ i, (rmOp h d k).1 i = h i) := by
  unfold rmOp
  rw [hd]
  dsimp only
  refine ⟨rfl, hset_at _ _ _, ?_, ?_⟩
  · unfold entriesAt
    rw [hset_at]
    dsimp only
    rw [lookup_delEntry]
    simp
  · intro habs i
    rw [delEntry_absent es k habs]
    by_cases hi : i = d
    · subst hi; rw [hset_at, hd]
    · rw [hset_ne _ _ _ _ hi]

/-- C5 (amended) at a concrete input: removing the absent name `"x"`
from the empty directory returns `true` and leaves the heap unchanged. -/
theorem chainResp_C5_witness :
    (rmOp dirOnly 0 "x").2 = true ∧
    (∀ i, (rmOp dirOnly 0 "x").1 i = dirOnly i) :=
  ⟨(chainResp_C5_amended dirOnly 0 "d" none [] "x" rfl).1,
   (chainResp_C5_amended dirOnly 0 "d" none [] "x" rfl).2.2.2 rfl⟩

/-- Claim C6 counterexample: The claim says that after `add` then `rm`,
the removed entry's parent back-reference is cleared to none. With
`dirAndFile` (directory 0, file 1): after `add`-ing the file and
`rm`-ing it by name, the file is gone from the entries mapping but its
`parent` still points at directory 0 — `rm` only deletes the mapping
and never touches the removed entry's `parent`. -/
theorem chainResp_C6_cex :
    lookupEntry
      (entriesAt ((rmOp (addOne dirAndFile 0 1) 0 "x.js").1) 0) "x.js" =
      none ∧
    parentAt ((rmOp (addOne dirAndFile 0 1) 0 "x.js").1) 1 = some 0 ∧
    parentAt ((rmOp (addOne dirAndFile 0 1) 0 "x.js").1) 1 ≠ none := by
  have h0 : parentAt ((rmOp (addOne dirAndFile 0 1) 0 "x.js").1) 1 =
      some 0 := rfl
  refine ⟨rfl, h0, ?_⟩
  intro hcontra
  rw [h0] at hcontra
  exact Option.noConfusion hcontra

/-- Claim C6 amended: For every entry `x` added to directory `d` and
then removed via `rm` with `x`'s name — whatever `x`'s kind: file,
package descriptor, or directory — the entry is deleted from `d`'s
entries mapping, but its parent back-reference is left pointing at `d`
(`rm` does not clear it). -/
theorem chainResp_C6_amended (h : Heap) (d x : Nat) (dn : String)
    (dp : Option Nat) (es : List (String × Nat)) (xo : DirentObj)
    (hd : h d = some (.dir dn dp es)) (hx : h x = some xo)
    (hxd : x ≠ d) :
    lookupEntry
      (entriesAt ((rmOp (addOne h d x) d (dNameOf xo)).1) d) (dNameOf xo) =
      none ∧
    parentAt ((rmOp (addOne h d x) d (dNameOf xo)).1) x = some d := by
  have h1d : hset h x (setParent xo (some d)) d = some (.dir dn dp es) := by
    rw [hset_ne h x _ d (Ne.symm hxd)]; exact hd
  have hadd : addOne h d x =
      hset (hset h x (setParent xo (some d))) d
        (.dir dn dp (setEntry es (dNameOf xo) x)) := by
    unfold addOne
    rw [hx]
    dsimp only
    rw [h1d]
  have h2d : (hset (hset h x (setParent xo (some d))) d
      (.dir dn dp (setEntry es (dNameOf xo) x))) d =
      some (.dir dn dp (setEntry es (dNameOf xo) x)) := hset_at _ _ _
  have hrm : (rmOp (addOne h d x) d (dNameOf xo)).1 =
      hset (hset (hset h x (setParent xo (some d))) d
          (.dir dn dp (setEntry es (dNameOf xo) x))) d
        (.dir dn dp (delEntry (setEntry es (dNameOf xo) x) (dNameOf xo))) := by
    rw [hadd]
    unfold rmOp
    rw [h2d]
  constructor
  · rw [hrm]
    unfold entriesAt
    rw [hset_at]
    dsimp only
    rw [lookup_delEntry]
    simp
  · rw [hrm]
    rw [parentAt_hset_entries _ d dn dp (setEntry es (dNameOf xo) x) _ h2d]
    rw [parentAt_hset_entries _ d dn dp es _ h1d]
    rw [parentAt_hset]
    simp [parentOfObj_setParent]

/-- C6 (amended) at concrete inputs of both kinds: adding then removing
the file of `dirAndFile` by name, and likewise the directory `b` of
`twoDirsFile`, leaves the mapping empty of the entry while the entry's
parent still points at the containing directory. -/
theorem chainResp_C6_witness :
    (lookupEntry
        (entriesAt ((rmOp (addOne dirAndFile 0 1) 0 "x.js").1) 0) "x.js" =
        none ∧
      parentAt ((rmOp (addOne dirAndFile 0 1) 0 "x.js").1) 1 = some 0) ∧
    (lookupEntry
        (entriesAt ((rmOp (addOne twoDirsFile 0 1) 0 "b").1) 0) "b" =
        none ∧
      parentAt ((rmOp (addOne twoDirsFile 0 1) 0 "b").1) 1 = some 0) :=
  ⟨chainResp_C6_amended dirAndFile 0 1 "d" none [] (.file "x.js" none)
      rfl rfl (by decide),
   chainResp_C6_amended twoDirsFile 0 1 "a" none [] (.dir "b" none [])
      rfl rfl (by decide)⟩

/-- Claim C7 counterexample: The claim says every sequence of `add`/`rm`
operations on freshly constructed entries preserves "every child's
parent points at its directory", and in particular that re-attaching an
already-parented entry leaves no stale child. Running
`a.add(x); b.add(x)` on `twoDirsFile` leaves `a`'s entries still holding
`x` while `x.parent` now points at `b`, violating the invariant. -/
theorem chainResp_C7_cex :
    lookupEntry
      (entriesAt (run twoDirsFile [Op.add 0 [2], Op.add 1 [2]]) 0) "x.js" =
      some 2 ∧
    parentAt (run twoDirsFile [Op.add 0 [2], Op.add 1 [2]]) 2 = some 1 ∧
    ¬ ParentInv (run twoDirsFile [Op.add 0 [2], Op.add 1 [2]]) := by
  have h2 : parentAt (run twoDirsFile [Op.add 0 [2], Op.add 1 [2]]) 2 =
      some 1 := rfl
  refine ⟨rfl, h2, ?_⟩
  intro inv
  have h0 : (run twoDirsFile [Op.add 0 [2], Op.add 1 [2]]) 0 =
      some (.dir "a" none [("x.js", 2)]) := rfl
  have hbad := inv 0 "a" none [("x.js", 2)] h0 "x.js" 2 rfl
  rw [h2] at hbad
  exact absurd (Option.some.inj hbad) (by decide)

/-- Claim C7 amended: The invariant "every entry in a directory's
entries mapping has its parent set to that directory" is preserved by
every sequence of `add`/`rm` operations in which each added entry is
unattached (parent unset) at the moment it is added; re-attaching an
already-parented entry is excluded, since it leaves a stale child in the
old directory (as the counterexample shows). -/
theorem chainResp_C7_amended : ∀ (ops : List Op) (h : Heap), ParentInv h →
    Guarded h ops → ParentInv (run h ops) := by
  intro ops
  induction ops with
  | nil => intro h inv _; exact inv
  | cons op rest ih =>
    intro h inv hg
    simp only [Guarded] at hg
    obtain ⟨hok, hrest⟩ := hg
    have inv1 : ParentInv (applyOp h op) := by
      cases op with
      | add d xs =>
        simp only [GuardOk] at hok
        exact addMany_inv d xs h inv hok
      | rm d name => exact rm_inv h d name inv
    exact ih (applyOp h op) inv1 hrest

/-- C7 (amended) at a concrete input: on `twoDirsFile`, the guarded
sequence `a.add(x); a.rm("x.js")` preserves the parent invariant. -/
theorem chainResp_C7_witness :
    ParentInv (run twoDirsFile [Op.add 0 [2], Op.rm 0 "x.js"]) :=
  chainResp_C7_amended [Op.add 0 [2], Op.rm 0 "x.js"] twoDirsFile
    (by
      intro d n p es hd k x hk
      rcases d with _ | (_ | (_ | d))
      · injection hd with ho
        injection ho with e1 e2 e3
        subst e3
        simp [lookupEntry] at hk
      · injection hd with ho
        injection ho with e1 e2 e3
        subst e3
        simp [lookupEntry] at hk
      · injection hd with ho
        exact DirentObj.noConfusion ho
      · exact Option.noConfusion hd)
    ⟨show addGuard twoDirsFile 0 [2] = true by decide, trivial, trivial⟩

/-- Claim C8: `File.request` never modifies the tree: whether it resolves,
raises not-found, or crashes on a bad cast, the heap coming out of the
traversal is exactly the heap going in — so every directory's entries
mapping and every entry's parent back-reference are as before the call,
and resolution yields exactly one file or fails with no state change. -/
theorem chainResp_C8 (h : Heap) (fuel x : Nat) (t : String) :
    (requestS h fuel x t).2 = h ∧
    (∀ i, entriesAt ((requestS h fuel x t).2) i = entriesAt h i) ∧
    (∀ i, parentAt ((requestS h fuel x t).2) i = parentAt h i) := by
  have hp : (requestS h fuel x t).2 = h := by
    unfold requestS
    repeat' split
    all_goals first | rfl | exact handle_pure fuel h _ t
  exact ⟨hp, fun i => by rw [hp], fun i => by rw [hp]⟩

/-- Claim C9 counterexample: The claim says invoking `add` or `remove` on
a `File` always fails by signalling an "entry has no children"
structural error. In the source, `File` simply does not define these
methods, so the invocation fails with the JS missing-method type error
(`recv.add is not a function`), not with any structural error. -/
theorem chainResp_C9_cex :
    invokeAdd leavesOnly 1 [2] = .error .notAFunction ∧
    invokeRm leavesOnly 1 "g.js" = .error .notAFunction ∧
    invokeAdd leavesOnly 1 [2] ≠ .error .specStructural ∧
    invokeRm leavesOnly 1 "g.js" ≠ .error .specStructural := by
  have ha : invokeAdd leavesOnly 1 [2] = .error .notAFunction := rfl
  have hr : invokeRm leavesOnly 1 "g.js" = .error .notAFunction := rfl
  refine ⟨ha, hr, ?_, ?_⟩
  · intro hcontra
    rw [ha] at hcontra
    simp at hcontra
  · intro hcontra
    rw [hr] at hcontra
    simp at hcontra

/-- Claim C9 amended: A leaf rejects structural mutation, but not with a
structural "entry has no children" error: `File` (and `Package`, which
extends it) defines no `add`/`rm` at all, so every invocation of either
on a leaf receiver fails with the missing-method runtime type error, and
never with the spec's claimed structural error. -/
theorem chainResp_C9_amended (h : Heap) (i : Nat) (xs : List Nat)
    (k : String)
    (hleaf : (∃ n p, h i = some (.file n p)) ∨
      (∃ m p, h i = some (.pkg m p))) :
    invokeAdd h i xs = .error .notAFunction ∧
    invokeRm h i k = .error .notAFunction ∧
    invokeAdd h i xs ≠ .error .specStructural ∧
    invokeRm h i k ≠ .error .specStructural := by
  have ha : invokeAdd h i xs = .error .notAFunction := by
    rcases hleaf with ⟨n, p, hi⟩ | ⟨m, p, hi⟩ <;> (unfold invokeAdd; rw [hi])
  have hr : invokeRm h i k = .error .notAFunction := by
    rcases hleaf with ⟨n, p, hi⟩ | ⟨m, p, hi⟩ <;> (unfold invokeRm; rw [hi])
  refine ⟨ha, hr, ?_, ?_⟩
  · intro hcontra
    rw [ha] at hcontra
    simp at hcontra
  · intro hcontra
    rw [hr] at hcontra
    simp at hcontra

/-- C9 (amended) at a concrete input: invoking `add`/`rm` on the
detached file of `leavesOnly` fails with the missing-method error. -/
theorem chainResp_C9_witness :
    invokeAdd leavesOnly 2 [1] = .error .notAFunction ∧
    invokeRm leavesOnly 2 "f.js" = .error .notAFunction ∧
    invokeAdd leavesOnly 2 [1] ≠ .error .specStructural ∧
    invokeRm leavesOnly 2 "f.js" ≠ .error .specStructural :=
  chainResp_C9_amended leavesOnly 2 [1] "f.js" (.inl ⟨"g.js", none, rfl⟩)

/-- Claim C10: The resolver's kind assumptions are unchecked: in
`treeBadNmKind` the ancestor `root` has a child keyed `node_modules`
that is a `File`; `handleRequest` casts it to `Directory` unchecked and
invokes `hasFile` on it, so the request fails with a runtime type error
— it neither returns a file nor raises the module-not-found error. -/
theorem chainResp_C10 :
    (requestS treeBadNmKind 2 3 "target").1 = .error .typeError ∧
    (∀ f : Nat, (requestS treeBadNmKind 2 3 "target").1 ≠ .ok f) ∧
    (∀ s : String,
      (requestS treeBadNmKind 2 3 "target").1 ≠ .error (.notFound s)) := by
  have h0 : (requestS treeBadNmKind 2 3 "target").1 = .error .typeError := rfl
  refine ⟨h0, ?_, ?_⟩
  · intro f hcontra
    rw [h0] at hcontra
    exact Except.noConfusion hcontra
  · intro s hcontra
    rw [h0] at hcontra
    simp at hcontra

end ChainResp
